import Mathlib

/-!
Verification development for the T-bank NLP RAG pipeline.

Shallow embeddings of:
* `src/tplexity/retrieval/rrf.py` — Reciprocal Rank Fusion (`RRFRanker.rank`);
* `src/tplexity/retriever/retry_utils.py` — `is_retryable_error`, `retry_with_backoff`;
* `src/tplexity/generation/generation_service.py` — agent fallbacks, document
  validation and the retrieval branch of `generate`;
* `src/tplexity/generation/memory_service.py` — `add_message` / `get_history`;
* `src/tplexity/tg_parse/llm_batcher.py` — `determine_relevance_days`,
  `_process_single_request`, `_add_to_cache`;
* `src/tplexity/retriever/vector_search.py` — `_ensure_collection`,
  `delete_all_documents`.

Machine floats from the Python source are modelled as rationals (`ℚ`); the
algorithms are pure accumulations and comparisons, so the structure carries
over unchanged.
-/

namespace RRF

/-- One entry of a ranked list: `(doc_id, score)`, as handed to
`RRFRanker.rank`.  The incoming score is carried but never read by the
algorithm. -/
abbrev Entry : Type := Nat × ℚ

/-- Embeds the `defaultdict(float)` accumulation
`rrf_scores[doc_id] += v` of `rrf.py`: a Python dict is an
insertion-ordered association list; an absent key appears at the end with
the added value, a present key keeps its position and accumulates. -/
def addScore : List (Nat × ℚ) → Nat → ℚ → List (Nat × ℚ)
  | [], d, v => [(d, v)]
  | e :: rest, d, v =>
      if e.1 = d then (e.1, e.2 + v) :: rest else e :: addScore rest d v

/-- Embeds one iteration of the outer loop of `RRFRanker.rank`
(lines 33–41 of `rrf.py`): every entry of `ranking`, enumerated with rank
starting at 1, contributes `1 / (k + rank)` to its document's score. -/
def rrfStep (k : ℚ) (scores : List (Nat × ℚ)) (ranking : List Entry) :
    List (Nat × ℚ) :=
  (ranking.enumFrom 1).foldl
    (fun acc p => addScore acc p.2.1 (1 / (k + (p.1 : ℚ)))) scores

/-- Embeds the accumulation phase of `RRFRanker.rank`: the `rrf_scores`
dict after all rankings are processed. -/
def fuseScores (k : ℚ) (rankings : List (List Entry)) : List (Nat × ℚ) :=
  rankings.foldl (rrfStep k) []

/-- Embeds `RRFRanker.rank`: accumulate, then
`sorted(rrf_scores.items(), key=lambda x: x[1], reverse=True)` — a stable
sort, descending by score. -/
def rank (k : ℚ) (rankings : List (List Entry)) : List (Nat × ℚ) :=
  (fuseScores k rankings).mergeSort (fun a b => decide (b.2 ≤ a.2))

/-- Document ids in order of first occurrence across the input rankings
(rankings scanned in order, each in rank order). -/
def firstOccList (rankings : List (List Entry)) : List Nat :=
  rankings.foldl
    (fun acc r =>
      r.foldl (fun ks e => if e.1 ∈ ks then ks else ks ++ [e.1]) acc) []

/-- The rank (starting at 1) of document `d` inside one ranked list. -/
def rankIn (r : List Entry) (d : Nat) : Nat :=
  r.findIdx (fun e => e.1 = d) + 1

/-- Spec-side contribution of one input list to document `d`, following the
spec's words: `1/(k + rank)` if the list contains `d`, nothing otherwise. -/
def specContrib (k : ℚ) (d : Nat) (r : List Entry) : ℚ :=
  if d ∈ r.map Prod.fst then 1 / (k + (rankIn r d : ℚ)) else 0

/-- Spec-side fused score: the sum of `1/(k + rank)` over every input list
in which `d` appears. -/
def specScore (k : ℚ) (d : Nat) (rankings : List (List Entry)) : ℚ :=
  (rankings.map (specContrib k d)).sum

/-- Score recorded for `d` in the accumulator (0 when absent, matching
`defaultdict(float)`). -/
def lookupQ : List (Nat × ℚ) → Nat → ℚ
  | [], _ => 0
  | e :: rest, d => if e.1 = d then e.2 else lookupQ rest d

/-- Contribution of an enumerated tail of a ranking to document `d`. -/
def contribOf (k : ℚ) (d : Nat) (ps : List (Nat × Entry)) : ℚ :=
  ((ps.filter fun p => p.2.1 = d).map fun p => 1 / (k + (p.1 : ℚ))).sum

/-- Key-insertion step matching `addScore` on the key level. -/
def insKey (ks : List Nat) (d : Nat) : List Nat :=
  if d ∈ ks then ks else ks ++ [d]

/-- The comparison used by `sorted(..., key=lambda x: x[1], reverse=True)`:
descending by score. -/
def scoreDesc (a b : Nat × ℚ) : Bool := decide (b.2 ≤ a.2)

end RRF

namespace Str

/-- Python `str.lower()`, modelled per character (kernel-computable, unlike
`String.toLower`, whose well-founded recursion does not reduce). -/
def lower (s : String) : String := ⟨s.toList.map Char.toLower⟩

/-- Python `str.upper()`, modelled per character. -/
def upper (s : String) : String := ⟨s.toList.map Char.toUpper⟩

/-- Python `str.strip()`: whitespace removed from both ends. -/
def strip (s : String) : String :=
  ⟨((s.toList.dropWhile Char.isWhitespace).reverse.dropWhile
      Char.isWhitespace).reverse⟩

/-- Python `str.startswith(pre)`. -/
def startsWith (s pre : String) : Bool := pre.toList.isPrefixOf s.toList

end Str

namespace Retry

/-- A Python exception as observed by `retry_utils.py`: the type name
(`type(error).__name__`), the message (`str(error)`) and the optional
`status_code` attribute. -/
structure PyError where
  typeName : String
  message : String
  statusCode : Option Nat
deriving DecidableEq

/-- `retryable_errors` tuple of `is_retryable_error`. -/
def retryableErrorNames : List String :=
  ["ConnectionError", "TimeoutError", "Timeout", "ConnectionRefusedError",
   "ConnectionResetError", "httpx.ConnectError", "httpx.ConnectTimeout",
   "httpx.ReadTimeout", "httpx.WriteTimeout", "httpx.PoolTimeout",
   "httpx.NetworkError"]

/-- `retryable_http_statuses` tuple of `is_retryable_error`. -/
def retryableHttpStatuses : List Nat := [429, 500, 502, 503, 504]

/-- Substrings checked against `str(error).lower()` in `is_retryable_error`. -/
def retryableSubstrings : List String :=
  ["timeout", "connection", "network", "429", "500", "502", "503", "504"]

/-- `needle` occurs as a contiguous run inside the second list. -/
def listIsInfix (needle : List Char) : List Char → Bool
  | [] => needle.isEmpty
  | c :: rest => needle.isPrefixOf (c :: rest) || listIsInfix needle rest

/-- Python `needle in haystack` on strings. -/
def containsSub (haystack needle : String) : Bool :=
  listIsInfix needle.toList haystack.toList

/-- Embeds `is_retryable_error` (retry_utils.py lines 26–69): a type name
containing one of the retryable names, a `status_code` among the retryable
statuses, or a lowercased message containing one of the retryable
substrings. -/
def isRetryableError (e : PyError) : Bool :=
  (retryableErrorNames.any fun n => containsSub e.typeName n) ||
  (match e.statusCode with
   | some c => retryableHttpStatuses.contains c
   | none => false) ||
  (retryableSubstrings.any fun n => containsSub (Str.lower e.message) n)

/-- Loop of `retry_with_backoff` (retry_utils.py lines 103–142); delays and
jitter are elided — they affect neither the returned value nor the
invocation count.  `f i` is the outcome of the i-th invocation of `func`
(0-based); `attempt + remaining = max_retries` is the loop invariant.
Returns the final outcome together with the number of invocations of
`func`.  The `remaining = 0` base case is the post-loop
`raise RuntimeError` path, reachable only when `max_retries = 0`. -/
def retryGo {a : Type} (f : Nat → Except PyError a) :
    Nat → Nat → Except PyError a × Nat
  | attempt, 0 =>
      (.error ⟨"RuntimeError", "Unexpected error in retry_with_backoff", none⟩,
        attempt)
  | attempt, r + 1 =>
      match f attempt with
      | .ok v => (.ok v, attempt + 1)
      | .error e =>
          if ¬ isRetryableError e then (.error e, attempt + 1)
          else if r = 0 then (.error e, attempt + 1)
          else retryGo f (attempt + 1) r

/-- Embeds `retry_with_backoff` with `max_retries` attempts (the count
includes the first invocation). -/
def retryWithBackoff {a : Type} (f : Nat → Except PyError a)
    (maxRetries : Nat) : Except PyError a × Nat :=
  retryGo f 0 maxRetries

/-- A concrete network timeout failure, used as test input. -/
def timeoutError : PyError := ⟨"TimeoutError", "request timed out", none⟩

/-- A concrete non-retryable failure, used as test input. -/
def valueError : PyError := ⟨"ValueError", "bad payload", none⟩

end Retry

namespace Generation

/-- Embeds `GenerationService._should_use_retriever` given the outcome of
the routing agent's `llm_client.generate` call (the `try` body strips,
uppercases and tests for a leading `YES`; the bare `except Exception`
handler returns `True`, so no agent failure ever propagates). -/
def shouldUseRetriever (decision : Except Retry.PyError String) : Bool :=
  match decision with
  | .ok d => Str.startsWith (Str.upper (Str.strip d)) "YES"
  | .error _ => true

/-- Embeds `GenerationService._reformulate_query` given the outcome of the
reformulation agent's call: the stripped agent output on success, the
original query unchanged on any exception (total: nothing propagates). -/
def reformulateQuery (query : String)
    (result : Except Retry.PyError String) : String :=
  match result with
  | .ok r => Str.strip r
  | .error _ => query

/-- Embeds `GenerationService._evaluate_document_relevance` given the
outcome of the evaluator agent's call: leading `YES` after strip/upper on
success, `True` (relevant) on any exception (total: nothing propagates). -/
def evaluateDocumentRelevance (decision : Except Retry.PyError String) :
    Bool :=
  match decision with
  | .ok d => Str.startsWith (Str.upper (Str.strip d)) "YES"
  | .error _ => true

/-- A retrieval candidate `(doc_id, score, text, metadata)`; the metadata
dict payload is uninterpreted. -/
structure Doc where
  docId : String
  score : ℚ
  text : String
  metadata : Option String
deriving DecidableEq

/-- Embeds `GenerationService._validate_documents`: drop a candidate whose
score is below `min_score`, whose text is empty, or whose stripped text is
shorter than `min_text_length` (`isinstance(text, str)` is always true in
the typed model). -/
def validateDocuments (documents : List Doc) (minScore : ℚ)
    (minTextLength : Nat) : List Doc :=
  documents.filter fun d =>
    ¬ d.score < minScore ∧ d.text ≠ "" ∧ ¬ (Str.strip d.text).length < minTextLength

/-- Embeds `_evaluate_documents_relevance_parallel`: document `i` is kept
when its relevance outcome is an exception (fail open) or `True`. -/
def evaluateDocumentsRelevanceParallel (documents : List Doc)
    (results : Nat → Except Retry.PyError Bool) : List Doc :=
  (documents.enum.filter fun p =>
    match results p.1 with
    | .error _ => true
    | .ok b => b).map (·.2)

/-- The canned no-relevant-information answer of `generate`. -/
def noRelevantInfoMessage : String :=
  "К сожалению, я не нашел релевантной информации в базе знаний для ответа на ваш вопрос."

/-- Embeds the retrieval branch of `GenerationService.generate`
(lines 488–569 plus the final return): empty-query `ValueError`, validation
with `min_score=0.0, min_text_length=10`, the two `REJECTED` early returns
`(canned message, [], [])`, and otherwise the generated answer with the
surviving documents' ids and metadata.  `rawDocuments` is the retriever
output, `relevanceResults i` the outcome of the relevance check of the
i-th validated document, `llmAnswer` the final generation output; timing
values are elided. -/
def generateWithRetrieval (query : String) (rawDocuments : List Doc)
    (relevanceResults : Nat → Except Retry.PyError Bool)
    (llmAnswer : String) :
    Except Retry.PyError (String × List String × List (Option String)) :=
  if Str.strip query = "" then
    .error ⟨"ValueError", "Запрос не может быть пустым", none⟩
  else
    let validated := validateDocuments rawDocuments 0 10
    if validated = [] then
      .ok (noRelevantInfoMessage, [], [])
    else
      let contextDocuments :=
        evaluateDocumentsRelevanceParallel validated relevanceResults
      if contextDocuments = [] then
        .ok (noRelevantInfoMessage, [], [])
      else
        .ok (llmAnswer, contextDocuments.map (·.docId),
          contextDocuments.map (·.metadata))

end Generation

namespace Memory

/-- One stored chat message. -/
structure Msg where
  role : String
  content : String
deriving DecidableEq

/-- `settings.max_history_messages` (generation/config.py line 22). -/
def maxHistoryMessages : Nat := 10

/-- Python `l[-n:]`: the last `n` elements — except that `l[-0:]` is the
whole list. -/
def lastN (n : Nat) (l : List Msg) : List Msg :=
  if n = 0 then l else l.drop (l.length - n)

/-- Embeds the successful path of `MemoryService.add_message`
(memory_service.py lines 91–117): append the new message, then, when the
length exceeds `max_history_messages + 1`, keep a leading system message
(if any) plus the last `max_history_messages` entries. -/
def addMessage (maxHistory : Nat) (history : List Msg)
    (role content : String) : List Msg :=
  let h := history ++ [⟨role, content⟩]
  if maxHistory + 1 < h.length then
    match h with
    | m :: _ =>
        if m.role = "system" then m :: lastN maxHistory h
        else lastN maxHistory h
    | [] => h
  else h

/-- Appending a list of messages one at a time via `add_message`. -/
def addMessages (maxHistory : Nat) (init : List Msg) (ms : List Msg) :
    List Msg :=
  ms.foldl (fun h m => addMessage maxHistory h m.role m.content) init

/-- Embeds `MemoryService.get_history`: `stored` is the outcome of the
Redis `get` (`.error` — any store failure, `.ok none` — absent key),
`decode` is `json.loads` restricted to message lists (`none` — a
`json.JSONDecodeError`).  Every failure path returns `[]`; the function is
total, so `get_history` never raises. -/
def getHistory (decode : String → Option (List Msg))
    (stored : Except Retry.PyError (Option String)) : List Msg :=
  match stored with
  | .error _ => []
  | .ok none => []
  | .ok (some s) =>
      if s = "" then []
      else
        match decode s with
        | none => []
        | some h => h

/-- 15 concrete non-system messages, used as test input. -/
def msgs15 : List Msg := List.replicate 15 ⟨"user", "m"⟩

end Memory

namespace Batcher

/-- Cache key of a batcher request.  `llm_batcher.py` uses
`f"{provider}:{md5(post_text)}"`; the MD5 content hash is modelled by the
content itself (the hash is treated as collision-free), so a key is the
pair (provider, post_text). -/
abbrev CacheKey : Type := String × String

/-- The observable state of an `LLMBatcher`: the bounded FIFO cache
(a Python dict, i.e. an insertion-ordered association list from key to
`(relevance_days, raw_response)`), the pending request queue, and a
counter of underlying `llm_client.generate` calls made so far. -/
structure BatcherState where
  cache : List (CacheKey × (Nat × String))
  queue : List CacheKey
  llmCalls : Nat
deriving DecidableEq

/-- Dict lookup `self.cache[key]`. -/
def lookupCache (cache : List (CacheKey × (Nat × String))) (k : CacheKey) :
    Option (Nat × String) :=
  (cache.find? fun e => e.1 = k).map (·.2)

/-- Python dict assignment `self.cache[key] = value`: an existing key keeps
its position, a new key is appended. -/
def cacheSet (cache : List (CacheKey × (Nat × String))) (k : CacheKey)
    (v : Nat × String) : List (CacheKey × (Nat × String)) :=
  if cache.any fun e => e.1 = k then
    cache.map fun e => if e.1 = k then (k, v) else e
  else cache ++ [(k, v)]

/-- Embeds `LLMBatcher._add_to_cache` (llm_batcher.py lines 308–323): when
`len(cache) >= max_cache_size`, delete the first (oldest-inserted) entry,
then store.  (For `max_cache_size = 0` the Python `next(iter({}))` would
raise `StopIteration` on an empty cache; the claims assume capacity ≥ 1.) -/
def addToCache (maxCacheSize : Nat)
    (cache : List (CacheKey × (Nat × String))) (k : CacheKey)
    (v : Nat × String) : List (CacheKey × (Nat × String)) :=
  let c := if maxCacheSize ≤ cache.length then cache.tail else cache
  cacheSet c k v

/-- First run of digits of the response: the extraction loop of
`_process_single_request` skips to the first digit and collects digits
until the first non-digit afterwards. -/
def firstDigitRun (cs : List Char) : List Char :=
  (cs.dropWhile fun c => ! c.isDigit).takeWhile Char.isDigit

/-- Python `int(...)` on a digit string. -/
def digitsToNat (cs : List Char) : Nat :=
  cs.foldl (fun n c => n * 10 + (c.toNat - 48)) 0

/-- Embeds the response-parsing part of `_process_single_request`
(llm_batcher.py lines 270–288): first digit run of the stripped response,
default 30 when there is none, otherwise `max(1, min(10000, int(digits)))`. -/
def parseRelevanceDays (rawResponse : String) : Nat :=
  let digits := firstDigitRun (Str.strip rawResponse).toList
  if digits = [] then 30
  else max 1 (min 10000 (digitsToNat digits))

/-- Embeds `LLMBatcher._process_single_request`: the value delivered to the
request's future — the parsed `(relevance_days, raw_response)` on success,
and the default `(30, "ERROR: ...")` (a result, not an exception) when the
LLM call raises. -/
def processSingleRequest (callResult : Except Retry.PyError String) :
    Nat × String :=
  match callResult with
  | .ok raw => (parseRelevanceDays raw, raw)
  | .error e => (30, "ERROR: " ++ e.message)

/-- Embeds the synchronous prefix of `determine_relevance_days`
(llm_batcher.py lines 110–123): compute the cache key, serve a hit
immediately from the cache (no enqueue), otherwise enqueue the request and
leave the caller pending (`none`). -/
def submit (st : BatcherState) (provider text : String) :
    Option (Nat × String) × BatcherState :=
  let key : CacheKey := (provider, text)
  match lookupCache st.cache key with
  | some res => (some res, st)
  | none => (none, { st with queue := st.queue ++ [key] })

/-- Models the batch processor draining the queue: every queued request is
handled by `_process_single_request` with exactly one underlying
`llm_client.generate` call, its future resolves to the parsed result, and
each awaiting `determine_relevance_days` caller then runs `_add_to_cache`
(llm_batcher.py lines 127–130).  `llm key` is the raw LLM response for a
payload.  Returns the per-request results in queue order. -/
def processQueue (maxCacheSize : Nat)
    (llm : CacheKey → Except Retry.PyError String) (st : BatcherState) :
    List (Nat × String) × BatcherState :=
  let results := st.queue.map fun key => processSingleRequest (llm key)
  let cache := (st.queue.zip results).foldl
    (fun c p => addToCache maxCacheSize c p.1 p.2) st.cache
  (results, ⟨cache, [], st.llmCalls + st.queue.length⟩)

end Batcher

namespace Vector

/-- The collection configuration built by `_ensure_collection`
(vector_search.py lines 199–210): a dense vector space of the embedding
dimension with COSINE distance and a BM25 sparse space with IDF modifier. -/
structure CollectionConfig where
  denseDim : Nat
  denseDistance : String
  sparseModifier : String
deriving DecidableEq

/-- The config `_ensure_collection` creates. -/
def defaultConfig (embeddingDim : Nat) : CollectionConfig :=
  ⟨embeddingDim, "COSINE", "IDF"⟩

/-- Qdrant server state at the interface boundary (spec §6): named
collections, each with its configuration and its stored point ids. -/
structure StoreState where
  collections : List (String × CollectionConfig × List String)
deriving DecidableEq

/-- Collection lookup by name. -/
def findCollection (st : StoreState) (name : String) :
    Option (CollectionConfig × List String) :=
  (st.collections.find? fun e => e.1 = name).map (·.2)

/-- Embeds the successful path of `VectorSearch._ensure_collection`
(vector_search.py lines 174–239): create the collection (empty, with the
default dense+sparse config) iff its name is absent. -/
def ensureCollection (st : StoreState) (name : String)
    (embeddingDim : Nat) : StoreState :=
  if name ∈ st.collections.map Prod.fst then st
  else ⟨st.collections ++ [(name, defaultConfig embeddingDim, [])]⟩

/-- Embeds the successful path of `VectorSearch.delete_all_documents`
(vector_search.py lines 659–684): `delete_collection` followed by
`_ensure_collection`. -/
def deleteAllDocuments (st : StoreState) (name : String)
    (embeddingDim : Nat) : StoreState :=
  ensureCollection ⟨st.collections.filter fun e => ¬ e.1 = name⟩ name
    embeddingDim

/-- Embeds `VectorSearch.add_documents`'s input validation (empty document
list, duplicate ids) followed by the Qdrant `upsert`, which at the
interface boundary fails when the target collection does not exist and
otherwise appends the point ids. -/
def addDocuments (st : StoreState) (name : String) (documents : List String)
    (ids : List String) : Except String StoreState :=
  if documents = [] then .error "empty documents"
  else if ¬ ids.Nodup then .error "duplicate ids"
  else
    match st.collections.find? fun e => e.1 = name with
    | none => .error "collection does not exist"
    | some _ =>
        .ok ⟨st.collections.map fun e =>
          if e.1 = name then (e.1, e.2.1, e.2.2 ++ ids) else e⟩

end Vector

namespace RRF

theorem keys_addScore (s : List (Nat × ℚ)) (d : Nat) (v : ℚ) :
    (addScore s d v).map Prod.fst =
      if d ∈ s.map Prod.fst then s.map Prod.fst else s.map Prod.fst ++ [d] := by
  induction s with
  | nil => simp [addScore]
  | cons e rest ih =>
      by_cases h : e.1 = d
      · simp [addScore, h]
      · simp only [addScore, if_neg h, List.map_cons, ih, List.mem_cons]
        have : ¬ d = e.1 := fun hc => h hc.symm
        by_cases hm : d ∈ rest.map Prod.fst <;> simp [hm, this]

theorem lookupQ_addScore_self (s : List (Nat × ℚ)) (d : Nat) (v : ℚ) :
    lookupQ (addScore s d v) d = lookupQ s d + v := by
  induction s with
  | nil => simp [addScore, lookupQ]
  | cons e rest ih =>
      by_cases h : e.1 = d
      · simp [addScore, h, lookupQ]
      · simp [addScore, h, lookupQ, ih]

theorem lookupQ_addScore_other (s : List (Nat × ℚ)) (d d' : Nat) (v : ℚ)
    (h : d' ≠ d) : lookupQ (addScore s d v) d' = lookupQ s d' := by
  have h' : d ≠ d' := Ne.symm h
  induction s with
  | nil => simp [addScore, lookupQ, h']
  | cons e rest ih =>
      by_cases he : e.1 = d
      · simp [addScore, he, lookupQ, h']
      · simp [addScore, he, lookupQ, ih]

theorem contribOf_cons (k : ℚ) (d : Nat) (p : Nat × Entry)
    (ps : List (Nat × Entry)) :
    contribOf k d (p :: ps) =
      (if p.2.1 = d then 1 / (k + (p.1 : ℚ)) else 0) + contribOf k d ps := by
  by_cases h : p.2.1 = d <;> simp [contribOf, List.filter_cons, h]

theorem lookupQ_foldl_addScore (k : ℚ) (d : Nat) (ps : List (Nat × Entry)) :
    ∀ s : List (Nat × ℚ),
      lookupQ (ps.foldl
        (fun acc p => addScore acc p.2.1 (1 / (k + (p.1 : ℚ)))) s) d =
      lookupQ s d + contribOf k d ps := by
  induction ps with
  | nil => simp [contribOf]
  | cons p ps ih =>
      intro s
      rw [List.foldl_cons, ih, contribOf_cons]
      by_cases h : p.2.1 = d
      · rw [if_pos h, h, lookupQ_addScore_self]
        ring
      · have hd : d ≠ p.2.1 := Ne.symm h
        rw [if_neg h, lookupQ_addScore_other _ _ _ _ hd, zero_add]

theorem lookupQ_rrfStep (k : ℚ) (s : List (Nat × ℚ)) (r : List Entry)
    (d : Nat) :
    lookupQ (rrfStep k s r) d = lookupQ s d + contribOf k d (r.enumFrom 1) :=
  lookupQ_foldl_addScore k d (r.enumFrom 1) s

theorem lookupQ_fuseScores (k : ℚ) (d : Nat) (rankings : List (List Entry)) :
    lookupQ (fuseScores k rankings) d =
      (rankings.map fun r => contribOf k d (r.enumFrom 1)).sum := by
  have main : ∀ (rs : List (List Entry)) (s : List (Nat × ℚ)),
      lookupQ (rs.foldl (rrfStep k) s) d =
        lookupQ s d + (rs.map fun r => contribOf k d (r.enumFrom 1)).sum := by
    intro rs
    induction rs with
    | nil => simp
    | cons r rs ih =>
        intro s
        simp only [List.foldl_cons, ih, lookupQ_rrfStep, List.map_cons,
          List.sum_cons]
        ring
  simpa [lookupQ, fuseScores] using main rankings []

theorem keys_addScore' (s : List (Nat × ℚ)) (d : Nat) (v : ℚ) :
    (addScore s d v).map Prod.fst = insKey (s.map Prod.fst) d := by
  rw [keys_addScore, insKey]

theorem keys_foldl_addScore (k : ℚ) (ps : List (Nat × Entry)) :
    ∀ s : List (Nat × ℚ),
      ((ps.foldl
        (fun acc p => addScore acc p.2.1 (1 / (k + (p.1 : ℚ)))) s).map
          Prod.fst) =
      ps.foldl (fun ks p => insKey ks p.2.1) (s.map Prod.fst) := by
  induction ps with
  | nil => intro s; rfl
  | cons p ps ih =>
      intro s
      rw [List.foldl_cons, List.foldl_cons, ih, keys_addScore']

theorem keys_foldl_enumFrom (r : List Entry) :
    ∀ (n : Nat) (ks : List Nat),
      (r.enumFrom n).foldl (fun ks p => insKey ks p.2.1) ks =
      r.foldl (fun ks e => insKey ks e.1) ks := by
  induction r with
  | nil => intro n ks; rfl
  | cons e r ih =>
      intro n ks
      rw [List.enumFrom_cons, List.foldl_cons, List.foldl_cons, ih]

theorem keys_rrfStep (k : ℚ) (s : List (Nat × ℚ)) (r : List Entry) :
    (rrfStep k s r).map Prod.fst =
      r.foldl (fun ks e => insKey ks e.1) (s.map Prod.fst) := by
  rw [rrfStep, keys_foldl_addScore, keys_foldl_enumFrom]

theorem keys_fuseScores (k : ℚ) (rankings : List (List Entry)) :
    (fuseScores k rankings).map Prod.fst = firstOccList rankings := by
  have main : ∀ (rs : List (List Entry)) (s : List (Nat × ℚ)),
      ((rs.foldl (rrfStep k) s).map Prod.fst) =
        rs.foldl (fun acc r => r.foldl (fun ks e => insKey ks e.1) acc)
          (s.map Prod.fst) := by
    intro rs
    induction rs with
    | nil => intro s; rfl
    | cons r rs ih =>
        intro s
        rw [List.foldl_cons, List.foldl_cons, ih, keys_rrfStep]
  have := main rankings []
  simpa [fuseScores, firstOccList, insKey] using this

theorem mem_insKey (ks : List Nat) (d x : Nat) :
    x ∈ insKey ks d ↔ x ∈ ks ∨ x = d := by
  by_cases h : d ∈ ks
  · simp only [insKey, if_pos h]
    constructor
    · exact fun hx => Or.inl hx
    · rintro (hx | rfl) <;> assumption
  · simp [insKey, if_neg h]

theorem nodup_insKey (ks : List Nat) (d : Nat) (h : ks.Nodup) :
    (insKey ks d).Nodup := by
  by_cases hm : d ∈ ks
  · simpa [insKey, hm] using h
  · simp only [insKey, if_neg hm]
    refine List.Nodup.append h (List.nodup_singleton d) ?_
    intro x hx hx'
    simp only [List.mem_singleton] at hx'
    exact hm (hx' ▸ hx)

theorem mem_foldl_insKey (es : List Entry) :
    ∀ (ks : List Nat) (x : Nat),
      x ∈ es.foldl (fun ks e => insKey ks e.1) ks ↔
        x ∈ ks ∨ x ∈ es.map Prod.fst := by
  induction es with
  | nil => simp
  | cons e es ih =>
      intro ks x
      rw [List.foldl_cons, ih, mem_insKey]
      simp only [List.map_cons, List.mem_cons]
      tauto

theorem nodup_foldl_insKey (es : List Entry) :
    ∀ ks : List Nat, ks.Nodup →
      (es.foldl (fun ks e => insKey ks e.1) ks).Nodup := by
  induction es with
  | nil => exact fun ks h => h
  | cons e es ih =>
      intro ks h
      exact ih _ (nodup_insKey ks e.1 h)

theorem mem_firstOccList (rankings : List (List Entry)) (x : Nat) :
    x ∈ firstOccList rankings ↔ ∃ r ∈ rankings, x ∈ r.map Prod.fst := by
  have main : ∀ (rs : List (List Entry)) (ks : List Nat),
      x ∈ rs.foldl (fun acc r => r.foldl (fun ks e => insKey ks e.1) acc) ks ↔
        x ∈ ks ∨ ∃ r ∈ rs, x ∈ r.map Prod.fst := by
    intro rs
    induction rs with
    | nil => simp
    | cons r rs ih =>
        intro ks
        rw [List.foldl_cons, ih, mem_foldl_insKey]
        simp only [List.mem_cons]
        constructor
        · rintro ((h | h) | ⟨r', hr', hx⟩)
          · exact Or.inl h
          · exact Or.inr ⟨r, Or.inl rfl, h⟩
          · exact Or.inr ⟨r', Or.inr hr', hx⟩
        · rintro (h | ⟨r', hr' | hr', hx⟩)
          · exact Or.inl (Or.inl h)
          · exact Or.inl (Or.inr (hr' ▸ hx))
          · exact Or.inr ⟨r', hr', hx⟩
  simpa [firstOccList] using main rankings []

theorem nodup_firstOccList (rankings : List (List Entry)) :
    (firstOccList rankings).Nodup := by
  have main : ∀ (rs : List (List Entry)) (ks : List Nat), ks.Nodup →
      (rs.foldl (fun acc r => r.foldl (fun ks e => insKey ks e.1) acc)
        ks).Nodup := by
    intro rs
    induction rs with
    | nil => exact fun ks h => h
    | cons r rs ih =>
        intro ks h
        exact ih _ (nodup_foldl_insKey r ks h)
  simpa [firstOccList] using main rankings [] List.nodup_nil

theorem lookupQ_eq_of_mem (s : List (Nat × ℚ))
    (h : (s.map Prod.fst).Nodup) (d : Nat) (v : ℚ) (hm : (d, v) ∈ s) :
    lookupQ s d = v := by
  induction s with
  | nil => cases hm
  | cons e rest ih =>
      rcases List.mem_cons.mp hm with heq | hmem
      · rw [← heq, lookupQ, if_pos rfl]
      · have hk : d ∈ rest.map Prod.fst :=
          List.mem_map.mpr ⟨(d, v), hmem, rfl⟩
        have hne : e.1 ≠ d := by
          intro hc
          exact (List.nodup_cons.mp (by simpa using h)).1 (hc ▸ hk)
        rw [lookupQ, if_neg hne]
        exact ih (List.nodup_cons.mp (by simpa using h)).2 hmem

theorem contribOf_eq_zero_of_not_mem (k : ℚ) (d : Nat) (r : List Entry) :
    ∀ n : Nat, d ∉ r.map Prod.fst → contribOf k d (r.enumFrom n) = 0 := by
  induction r with
  | nil => intro n _; simp [contribOf]
  | cons e r ih =>
      intro n hd
      simp only [List.map_cons, List.mem_cons] at hd
      push_neg at hd
      rw [List.enumFrom_cons, contribOf_cons,
        if_neg (fun hc => hd.1 hc.symm), ih (n + 1) hd.2, zero_add]

theorem contribOf_enumFrom_eq (k : ℚ) (d : Nat) (r : List Entry)
    (hnd : (r.map Prod.fst).Nodup) :
    ∀ n : Nat,
      contribOf k d (r.enumFrom n) =
        if d ∈ r.map Prod.fst then
          1 / (k + (n : ℚ) + ((r.findIdx fun e => e.1 = d) : ℚ))
        else 0 := by
  induction r with
  | nil => intro n; simp [contribOf]
  | cons e r ih =>
      intro n
      have hcons : e.1 ∉ r.map Prod.fst ∧ (r.map Prod.fst).Nodup := by
        have h0 := hnd
        rw [List.map_cons, List.nodup_cons] at h0
        exact h0
      by_cases he : e.1 = d
      · have hd : d ∉ r.map Prod.fst := he ▸ hcons.1
        rw [List.enumFrom_cons, contribOf_cons, if_pos he,
          contribOf_eq_zero_of_not_mem k d r (n + 1) hd, add_zero]
        have hmem : d ∈ (e :: r).map Prod.fst := by
          simp [he]
        rw [if_pos hmem, List.findIdx_cons]
        simp [he]
      · rw [List.enumFrom_cons, contribOf_cons,
          if_neg he, zero_add, ih hcons.2 (n + 1)]
        have hmem : d ∈ (e :: r).map Prod.fst ↔ d ∈ r.map Prod.fst := by
          simp only [List.map_cons, List.mem_cons]
          exact or_iff_right (fun hc => he hc.symm)
        by_cases hm : d ∈ r.map Prod.fst
        · rw [if_pos hm, if_pos (hmem.mpr hm), List.findIdx_cons]
          simp only [he, decide_eq_true_eq]
          norm_num
          ring_nf
        · rw [if_neg hm, if_neg (fun hc => hm (hmem.mp hc))]

theorem specContrib_eq_contribOf (k : ℚ) (d : Nat) (r : List Entry)
    (hnd : (r.map Prod.fst).Nodup) :
    specContrib k d r = contribOf k d (r.enumFrom 1) := by
  rw [contribOf_enumFrom_eq k d r hnd 1, specContrib, rankIn]
  by_cases hm : d ∈ r.map Prod.fst
  · rw [if_pos hm, if_pos hm]
    push_cast
    ring_nf
  · rw [if_neg hm, if_neg hm]

theorem pair_sublist_of_getElem? {α : Type} {l : List α} {i j : Nat}
    {a b : α} (hij : i < j) (ha : l[i]? = some a) (hb : l[j]? = some b) :
    List.Sublist [a, b] l := by
  have hi : i < l.length := (List.getElem?_eq_some.mp ha).1
  have hdrop : l.drop i = a :: l.drop (i + 1) := by
    rw [List.drop_eq_getElem_cons hi]
    congr 1
    exact (List.getElem?_eq_some.mp ha).2
  have hbmem : b ∈ l.drop (i + 1) := by
    have : (l.drop (i + 1))[j - (i + 1)]? = some b := by
      rw [List.getElem?_drop]
      rwa [Nat.add_sub_cancel' hij]
    rcases List.getElem?_eq_some.mp this with ⟨hlt, hget⟩
    exact hget ▸ List.getElem_mem hlt
  have h1 : List.Sublist [a, b] (a :: l.drop (i + 1)) :=
    List.Sublist.cons₂ a (List.singleton_sublist.mpr hbmem)
  have h2 : List.Sublist [a, b] (l.drop i) := hdrop.symm ▸ h1
  exact h2.trans (List.drop_sublist i l)

theorem scoreDesc_trans :
    ∀ a b c : Nat × ℚ, scoreDesc a b → scoreDesc b c → scoreDesc a c := by
  intro a b c hab hbc
  simp only [scoreDesc, decide_eq_true_eq] at hab hbc ⊢
  exact le_trans hbc hab

theorem scoreDesc_total : ∀ a b : Nat × ℚ, scoreDesc a b || scoreDesc b a := by
  intro a b
  simp only [scoreDesc, Bool.or_eq_true, decide_eq_true_eq]
  exact le_total b.2 a.2

theorem rank_eq_mergeSort (k : ℚ) (rankings : List (List Entry)) :
    rank k rankings = (fuseScores k rankings).mergeSort scoreDesc := rfl

theorem rank_pairwise (k : ℚ) (rankings : List (List Entry)) :
    (rank k rankings).Pairwise fun a b =>
      b.2 ≤ a.2 ∧ (a.2 = b.2 → List.Sublist [a.1, b.1] (firstOccList rankings)) := by
  set L := fuseScores k rankings with hL
  have henum : ((L.enum).mergeSort (List.enumLE scoreDesc)).map (·.2) =
      L.mergeSort scoreDesc := List.mergeSort_enum
  set E := (L.enum).mergeSort (List.enumLE scoreDesc) with hE
  have hsorted : E.Pairwise (fun a b => List.enumLE scoreDesc a b) := by
    have := List.sorted_mergeSort
      (List.enumLE_trans scoreDesc_trans) (List.enumLE_total scoreDesc_total)
      L.enum
    simpa using this
  have hperm : List.Perm E L.enum := List.mergeSort_perm L.enum _
  have hnodupE : E.Nodup := by
    have h1 : (L.enum).Nodup :=
      List.Nodup.of_map Prod.fst
        (by rw [List.enum_map_fst]; exact List.nodup_range _)
    exact hperm.nodup_iff.mpr h1
  have hpair : E.Pairwise fun p q =>
      List.enumLE scoreDesc p q = true ∧ p ≠ q := hsorted.and hnodupE
  have htarget : E.Pairwise fun p q =>
      (q.2.2 ≤ p.2.2 ∧
        (p.2.2 = q.2.2 → List.Sublist [p.2.1, q.2.1] (firstOccList rankings))) := by
    refine hpair.imp_of_mem ?_
    intro p q hp hq hpq
    obtain ⟨hle, hne⟩ := hpq
    have hpL : L[p.1]? = some p.2 :=
      List.mem_enum_iff_getElem?.mp (hperm.mem_iff.mp hp)
    have hqL : L[q.1]? = some q.2 :=
      List.mem_enum_iff_getElem?.mp (hperm.mem_iff.mp hq)
    simp only [List.enumLE, scoreDesc] at hle
    by_cases h1 : q.2.2 ≤ p.2.2
    · refine ⟨h1, ?_⟩
      intro htie
      have h2 : p.2.2 ≤ q.2.2 := le_of_eq htie
      rw [if_pos (by simpa using h1), if_pos (by simpa using h2)] at hle
      have hij : p.1 ≤ q.1 := by simpa using hle
      have hij' : p.1 < q.1 := by
        rcases Nat.lt_or_ge p.1 q.1 with h | h
        · exact h
        · exfalso
          have : p.1 = q.1 := Nat.le_antisymm hij h
          rw [this, hqL] at hpL
          exact hne (Prod.ext this (Option.some.inj hpL).symm)
      have hsub : List.Sublist [p.2, q.2] L := pair_sublist_of_getElem? hij' hpL hqL
      have := hsub.map Prod.fst
      rwa [← keys_fuseScores k rankings]
    · rw [if_neg (by simpa using h1)] at hle
      cases hle
  have : ((E.map (·.2)).Pairwise fun a b =>
      b.2 ≤ a.2 ∧ (a.2 = b.2 → List.Sublist [a.1, b.1] (firstOccList rankings))) := by
    rw [List.pairwise_map]
    exact htarget
  rw [henum] at this
  exact this

end RRF

/-- C1: For every collection of ranked lists given to `RRFRanker.rank` with
damping constant `k`, the fused score of each document id equals the sum of
`1/(k + rank)` over every input list in which that id appears (rank starting
at 1); a document id present in no input list does not appear in the output;
the output is sorted descending by fused score with exact ties ordered by
first occurrence in the inputs; and an empty collection of lists yields an
empty output. -/
theorem claim_C1_rrf_rank_correct (k : ℚ) (_hk : 0 ≤ k)
    (rankings : List (List RRF.Entry))
    (hnd : ∀ r ∈ rankings, (r.map Prod.fst).Nodup) :
    (∀ d : Nat,
      d ∈ (RRF.rank k rankings).map Prod.fst ↔
        ∃ r ∈ rankings, d ∈ r.map Prod.fst) ∧
    (∀ d v, (d, v) ∈ RRF.rank k rankings → v = RRF.specScore k d rankings) ∧
    ((RRF.rank k rankings).Pairwise fun a b =>
      b.2 ≤ a.2 ∧
        (a.2 = b.2 →
          List.Sublist [a.1, b.1] (RRF.firstOccList rankings))) ∧
    RRF.rank k [] = [] := by
  have hkeysnd : ((RRF.fuseScores k rankings).map Prod.fst).Nodup := by
    rw [RRF.keys_fuseScores]
    exact RRF.nodup_firstOccList rankings
  refine ⟨?_, ?_, ?_, by rw [RRF.rank_eq_mergeSort]; simp [RRF.fuseScores]⟩
  · intro d
    constructor
    · intro hd
      rcases List.mem_map.mp hd with ⟨e, he, hfst⟩
      have heL : e ∈ RRF.fuseScores k rankings := by
        rw [RRF.rank_eq_mergeSort] at he
        exact List.mem_mergeSort.mp he
      have : d ∈ (RRF.fuseScores k rankings).map Prod.fst :=
        List.mem_map.mpr ⟨e, heL, hfst⟩
      rw [RRF.keys_fuseScores] at this
      exact (RRF.mem_firstOccList rankings d).mp this
    · intro hd
      have : d ∈ RRF.firstOccList rankings :=
        (RRF.mem_firstOccList rankings d).mpr hd
      rw [← RRF.keys_fuseScores k rankings] at this
      rcases List.mem_map.mp this with ⟨e, he, hfst⟩
      refine List.mem_map.mpr ⟨e, ?_, hfst⟩
      rw [RRF.rank_eq_mergeSort]
      exact List.mem_mergeSort.mpr he
  · intro d v hdv
    have hL : (d, v) ∈ RRF.fuseScores k rankings := by
      rw [RRF.rank_eq_mergeSort] at hdv
      exact List.mem_mergeSort.mp hdv
    have h1 : RRF.lookupQ (RRF.fuseScores k rankings) d = v :=
      RRF.lookupQ_eq_of_mem _ hkeysnd d v hL
    rw [← h1, RRF.lookupQ_fuseScores, RRF.specScore]
    congr 1
    apply List.map_congr_left
    intro r hr
    exact (RRF.specContrib_eq_contribOf k d r (hnd r hr)).symm
  · exact RRF.rank_pairwise k rankings

/-- Witness for C1 at a concrete input: two ranked lists sharing document 2,
with `k = 60`. -/
theorem claim_C1_rrf_rank_correct_witness :
    (∀ r ∈ [[((1 : Nat), (5 : ℚ)), (2, 3)], [(2, 4), (3, 1)]],
      (r.map Prod.fst).Nodup) ∧
    (∀ d v,
      (d, v) ∈ RRF.rank 60 [[((1 : Nat), (5 : ℚ)), (2, 3)], [(2, 4), (3, 1)]] →
        v = RRF.specScore 60 d
          [[((1 : Nat), (5 : ℚ)), (2, 3)], [(2, 4), (3, 1)]]) :=
  ⟨by decide,
    (claim_C1_rrf_rank_correct 60 (by norm_num)
      [[((1 : Nat), (5 : ℚ)), (2, 3)], [(2, 4), (3, 1)]] (by decide)).2.1⟩

/-- C2 counterexample: with `max_retries = 3` and an operation that always
fails with a retryable `TimeoutError`, `retry_with_backoff` re-raises that
same `TimeoutError` after 3 invocations; the raised failure is not tagged
as retries exhausted — no `RetriesExhaustedError` exists anywhere in the
code base. -/
theorem claim_C2_counterexample :
    Retry.retryWithBackoff
        (fun _ => (.error Retry.timeoutError : Except Retry.PyError Unit)) 3 =
      (.error Retry.timeoutError, 3) ∧
    Retry.timeoutError.typeName ≠ "RetriesExhaustedError" :=
  ⟨rfl, by decide⟩

/-- C2 amended: with `max_retries = 3`, an operation failing on every
invocation with a retryable failure is invoked exactly 3 times and the call
then re-raises the last failure itself (no `RetriesExhaustedError` wrapper
exists); an operation whose first failure is non-retryable is invoked
exactly once and that failure propagates immediately. -/
theorem claim_C2_retry_behavior {a : Type} (f : Nat → Except Retry.PyError a)
    (es : Nat → Retry.PyError)
    (hfail : ∀ i, f i = .error (es i))
    (hretry : ∀ i, Retry.isRetryableError (es i) = true) :
    Retry.retryWithBackoff f 3 = (.error (es 2), 3) ∧
    ∀ (g : Nat → Except Retry.PyError a) (e : Retry.PyError),
      g 0 = .error e → Retry.isRetryableError e = false →
      Retry.retryWithBackoff g 3 = (.error e, 1) := by
  constructor
  · simp [Retry.retryWithBackoff, Retry.retryGo, hfail, hretry]
  · intro g e hg he
    simp [Retry.retryWithBackoff, Retry.retryGo, hg, he]

/-- Witness for C2 at concrete inputs: an always-timeout operation is
invoked 3 times and re-raises the timeout; an operation failing with a
`ValueError` is invoked once. -/
theorem claim_C2_retry_behavior_witness :
    Retry.isRetryableError Retry.timeoutError = true ∧
    Retry.isRetryableError Retry.valueError = false ∧
    Retry.retryWithBackoff
        (fun _ => (.error Retry.timeoutError : Except Retry.PyError Unit)) 3 =
      (.error Retry.timeoutError, 3) ∧
    Retry.retryWithBackoff
        (fun _ => (.error Retry.valueError : Except Retry.PyError Unit)) 3 =
      (.error Retry.valueError, 1) :=
 by
  have ht : Retry.isRetryableError Retry.timeoutError = true := by decide
  have hv : Retry.isRetryableError Retry.valueError = false := by decide
  refine ⟨ht, hv, ?_, ?_⟩
  · exact (claim_C2_retry_behavior
      (fun _ => (.error Retry.timeoutError : Except Retry.PyError Unit))
      (fun _ => Retry.timeoutError) (fun _ => rfl) (fun _ => ht)).1
  · exact (claim_C2_retry_behavior
      (fun _ => (.error Retry.timeoutError : Except Retry.PyError Unit))
      (fun _ => Retry.timeoutError) (fun _ => rfl) (fun _ => ht)).2
      (fun _ => (.error Retry.valueError : Except Retry.PyError Unit))
      Retry.valueError rfl hv

/-- C3: a failure of any auxiliary agent call is never propagated — the
three handlers are total functions on the call outcome — and each site
falls back as documented: routing failure returns `True` (use retrieval),
reformulation failure returns the original query unchanged, relevance-check
failure keeps the document (`True`). -/
theorem claim_C3_agent_fallbacks :
    ∀ (e : Retry.PyError) (q : String),
      Generation.shouldUseRetriever (.error e) = true ∧
      Generation.reformulateQuery q (.error e) = q ∧
      Generation.evaluateDocumentRelevance (.error e) = true :=
  fun _ _ => ⟨rfl, rfl, rfl⟩

namespace Memory

theorem addMessage_length_le (h : List Msg) (r c : String)
    (hlen : h.length ≤ maxHistoryMessages + 1) :
    (addMessage maxHistoryMessages h r c).length ≤ maxHistoryMessages + 1 := by
  simp only [addMessage, maxHistoryMessages] at hlen ⊢
  split
  · split
    · split
      · simp [lastN]
        omega
      · simp [lastN]
        omega
    · next heq => simp at heq
  · next hnot =>
      simp only [List.length_append, List.length_singleton] at hnot ⊢
      omega

theorem addMessages_no_system (ms : List Msg) (hlen : ms.length = 15)
    (hroles : ∀ m ∈ ms, m.role ≠ "system") :
    addMessages maxHistoryMessages [] ms = ms.drop 4 := by
  rcases ms with _ | ⟨m1, _ | ⟨m2, _ | ⟨m3, _ | ⟨m4, _ | ⟨m5, _ | ⟨m6, _ | ⟨m7, _ | ⟨m8, _ | ⟨m9, _ | ⟨m10, _ | ⟨m11, _ | ⟨m12, _ | ⟨m13, _ | ⟨m14, _ | ⟨m15, _ | ⟨m16, t⟩⟩⟩⟩⟩⟩⟩⟩⟩⟩⟩⟩⟩⟩⟩⟩
  all_goals try (exfalso; simp only [List.length_cons, List.length_nil] at hlen; omega)
  have h1 : m1.role = "system" ↔ False := by
    simp only [iff_false]
    exact hroles m1 (by simp)
  have h3 : m3.role = "system" ↔ False := by
    simp only [iff_false]
    exact hroles m3 (by simp)
  simp [addMessages, addMessage, lastN, maxHistoryMessages, h1, h3]

theorem addMessages_with_system (s : Msg) (hs : s.role = "system")
    (ms : List Msg) (hlen : ms.length = 15) :
    addMessages maxHistoryMessages [s] ms = s :: ms.drop 5 := by
  rcases ms with _ | ⟨m1, _ | ⟨m2, _ | ⟨m3, _ | ⟨m4, _ | ⟨m5, _ | ⟨m6, _ | ⟨m7, _ | ⟨m8, _ | ⟨m9, _ | ⟨m10, _ | ⟨m11, _ | ⟨m12, _ | ⟨m13, _ | ⟨m14, _ | ⟨m15, _ | ⟨m16, t⟩⟩⟩⟩⟩⟩⟩⟩⟩⟩⟩⟩⟩⟩⟩⟩
  all_goals try (exfalso; simp only [List.length_cons, List.length_nil] at hlen; omega)
  simp [addMessages, addMessage, lastN, maxHistoryMessages, hs]

end Memory

/-- C4 counterexample: with `max_history_messages = 10`, appending
`10 + 5 = 15` messages one at a time via `add_message` to an empty session
with no system message leaves a stored history — which is exactly what
`get_history` returns on its success path — of 11 entries, not 10:
`add_message` enforces the bound `max_history_messages + 1`, reserving a
slot for a system prompt even when none exists, and the length oscillates
between 10 and 11. -/
theorem claim_C4_counterexample :
    (Memory.addMessages Memory.maxHistoryMessages [] Memory.msgs15).length
        = 11 ∧
    (11 : Nat) ≠ Memory.maxHistoryMessages := ⟨by decide, by decide⟩

/-- C4 amended: after appending `max_history_messages + 5` messages one at
a time via `add_message`: with no pinned system message the history is the
`max_history_messages + 1` most recent messages (oldest dropped first);
with a pinned leading system message it is that message plus the
`max_history_messages` most recent ones; and the stored history never
exceeds `max_history_messages + 1` entries. -/
theorem claim_C4_memory_bound :
    (∀ ms : List Memory.Msg, ms.length = Memory.maxHistoryMessages + 5 →
      (∀ m ∈ ms, m.role ≠ "system") →
      Memory.addMessages Memory.maxHistoryMessages [] ms = ms.drop 4) ∧
    (∀ s : Memory.Msg, s.role = "system" →
      ∀ ms : List Memory.Msg, ms.length = Memory.maxHistoryMessages + 5 →
      Memory.addMessages Memory.maxHistoryMessages [s] ms = s :: ms.drop 5) ∧
    (∀ (h : List Memory.Msg) (r c : String),
      h.length ≤ Memory.maxHistoryMessages + 1 →
      (Memory.addMessage Memory.maxHistoryMessages h r c).length ≤
        Memory.maxHistoryMessages + 1) :=
  ⟨fun ms hlen hroles => Memory.addMessages_no_system ms hlen hroles,
   fun s hs ms hlen => Memory.addMessages_with_system s hs ms hlen,
   fun h r c hlen => Memory.addMessage_length_le h r c hlen⟩

/-- Witness for C4 at a concrete input: 15 user messages appended to an
empty history, and to a history holding one system message. -/
theorem claim_C4_memory_bound_witness :
    Memory.msgs15.length = Memory.maxHistoryMessages + 5 ∧
    (∀ m ∈ Memory.msgs15, m.role ≠ "system") ∧
    Memory.addMessages Memory.maxHistoryMessages [] Memory.msgs15 =
      Memory.msgs15.drop 4 ∧
    Memory.addMessages Memory.maxHistoryMessages [⟨"system", "s"⟩]
        Memory.msgs15 = ⟨"system", "s"⟩ :: Memory.msgs15.drop 5 :=
  ⟨by decide, by decide,
    claim_C4_memory_bound.1 Memory.msgs15 (by decide) (by decide),
    claim_C4_memory_bound.2.1 ⟨"system", "s"⟩ rfl Memory.msgs15 (by decide)⟩

namespace Batcher

theorem cacheSet_fresh (c : List (CacheKey × (Nat × String))) (k : CacheKey)
    (v : Nat × String) (h : ∀ e ∈ c, ¬ e.1 = k) :
    cacheSet c k v = c ++ [(k, v)] := by
  have hany : (c.any fun e => e.1 = k) = false := by
    simp only [List.any_eq_false, decide_eq_true_eq]
    exact h
  simp [cacheSet, hany]

theorem cacheSet_length_le (c : List (CacheKey × (Nat × String)))
    (k : CacheKey) (v : Nat × String) :
    (cacheSet c k v).length ≤ c.length + 1 := by
  unfold cacheSet
  split
  · simp
  · simp

theorem addToCache_no_evict (maxC : Nat)
    (c : List (CacheKey × (Nat × String))) (k : CacheKey) (v : Nat × String)
    (hlen : c.length < maxC) (h : ∀ e ∈ c, ¬ e.1 = k) :
    addToCache maxC c k v = c ++ [(k, v)] := by
  unfold addToCache
  rw [if_neg (by omega)]
  exact cacheSet_fresh c k v h

theorem foldl_addToCache_fresh (maxC : Nat) (f : CacheKey → Nat × String) :
    ∀ (ks : List CacheKey) (c : List (CacheKey × (Nat × String))),
      c.length + ks.length ≤ maxC →
      (∀ k ∈ ks, ∀ e ∈ c, ¬ e.1 = k) → ks.Nodup →
      ks.foldl (fun c k => addToCache maxC c k (f k)) c =
        c ++ ks.map fun k => (k, f k) := by
  intro ks
  induction ks with
  | nil => intro c _ _ _; simp
  | cons k ks ih =>
      intro c hlen hfresh hnd
      have hlt : c.length < maxC := by
        simp only [List.length_cons] at hlen
        omega
      rw [List.foldl_cons,
        addToCache_no_evict maxC c k (f k) hlt (hfresh k (by simp)),
        ih (c ++ [(k, f k)]) ?_ ?_ (List.nodup_cons.mp hnd).2]
      · simp
      · simp only [List.length_append, List.length_singleton,
          List.length_cons, List.length_nil] at hlen ⊢
        omega
      · intro k' hk' e he
        rcases List.mem_append.mp he with h1 | h1
        · exact hfresh k' (List.mem_cons_of_mem _ hk') e h1
        · have he1 : e = (k, f k) := by simpa using h1
        
          have : ¬ k = k' := by
            intro hc
            exact (List.nodup_cons.mp hnd).1 (hc ▸ hk')
          rw [he1]
          exact this

end Batcher

/-- C7: for the batcher cache with capacity `max_cache_size ≥ 1`, after
inserting `max_cache_size + 1` distinct keys into an empty cache the
first-inserted key is no longer served (FIFO eviction, oldest first), and
one insertion never grows a within-capacity cache beyond
`max_cache_size` entries. -/
theorem claim_C7_cache_eviction (maxC : Nat) (hmax : 1 ≤ maxC)
    (k0 : Batcher.CacheKey) (rest : List Batcher.CacheKey)
    (f : Batcher.CacheKey → Nat × String)
    (hlen : (k0 :: rest).length = maxC + 1)
    (hnd : (k0 :: rest).Nodup) :
    Batcher.lookupCache
      ((k0 :: rest).foldl
        (fun c k => Batcher.addToCache maxC c k (f k)) []) k0 = none ∧
    (∀ (c : List (Batcher.CacheKey × (Nat × String)))
      (k : Batcher.CacheKey) (v : Nat × String),
      c.length ≤ maxC → (Batcher.addToCache maxC c k v).length ≤ maxC) := by
  have hk0 : k0 ∉ rest := (List.nodup_cons.mp hnd).1
  have hndrest : rest.Nodup := (List.nodup_cons.mp hnd).2
  have hrlen : rest.length = maxC := by
    simpa using hlen
  have hne : rest ≠ [] := by
    intro hc
    rw [hc] at hrlen
    simp at hrlen
    omega
  constructor
  · set kl := rest.getLast hne with hkl
    have hsplit : rest.dropLast ++ [kl] = rest :=
      List.dropLast_append_getLast hne
    have hndmid : rest.dropLast.Nodup ∧ kl ∉ rest.dropLast := by
      have := hsplit ▸ hndrest
      rw [List.nodup_append] at this
      exact ⟨this.1, fun hc => this.2.2 hc (by simp)⟩
    have hmidlen : rest.dropLast.length = maxC - 1 := by
      have := congrArg List.length hsplit
      simp only [List.length_append, List.length_singleton] at this
      omega
    have step0 : Batcher.addToCache maxC [] k0 (f k0) = [(k0, f k0)] :=
      Batcher.addToCache_no_evict maxC [] k0 (f k0) (by simpa using hmax)
        (by simp)
    have stepmid :
        rest.dropLast.foldl
            (fun c k => Batcher.addToCache maxC c k (f k)) [(k0, f k0)] =
          (k0, f k0) :: (rest.dropLast.map fun k => (k, f k)) := by
      rw [Batcher.foldl_addToCache_fresh maxC f rest.dropLast [(k0, f k0)]
        (by simp only [List.length_singleton]; omega) ?_ hndmid.1]
      · simp
      · intro k hk e he
        have he1 : e = (k0, f k0) := by simpa using he
        rw [he1]
        intro hc
        have hks : k0 = k := hc
        exact hk0 (hks ▸ (List.dropLast_sublist rest).mem hk)
    have stepfin :
        Batcher.addToCache maxC
            ((k0, f k0) :: (rest.dropLast.map fun k => (k, f k))) kl (f kl) =
          (rest.dropLast.map fun k => (k, f k)) ++ [(kl, f kl)] := by
      unfold Batcher.addToCache
      rw [if_pos (by simp only [List.length_cons, List.length_map]; omega)]
      simp only [List.tail_cons]
      refine Batcher.cacheSet_fresh _ kl (f kl) ?_
      intro e he
      rcases List.mem_map.mp he with ⟨k', hk', rfl⟩
      intro hc
      exact hndmid.2 (hc ▸ hk')
    rw [List.foldl_cons, step0, ← hsplit, List.foldl_append, stepmid,
      List.foldl_cons, List.foldl_nil, stepfin]
    rw [Batcher.lookupCache, List.find?_eq_none.mpr, Option.map_none']
    intro e he
    rcases List.mem_append.mp he with h1 | h1
    · rcases List.mem_map.mp h1 with ⟨k', hk', rfl⟩
      simp only [decide_eq_true_eq]
      intro hc
      have hks : k' = k0 := hc
      exact hk0 (hks ▸ (List.dropLast_sublist rest).mem hk')
    · have he1 : e = (kl, f kl) := by simpa using h1
      rw [he1]
      simp only [decide_eq_true_eq]
      intro hc
      have hklk0 : kl = k0 := hc
      have hklmem : kl ∈ rest := by
        rw [hkl]
        exact List.getLast_mem hne
      exact hk0 (hklk0 ▸ hklmem)
  · intro c k v hc
    unfold Batcher.addToCache
    split
    · calc (Batcher.cacheSet c.tail k v).length ≤ c.tail.length + 1 :=
            Batcher.cacheSet_length_le _ _ _
        _ ≤ maxC := by
            simp only [List.length_tail]
            omega
    · next hno =>
        calc (Batcher.cacheSet c k v).length ≤ c.length + 1 :=
              Batcher.cacheSet_length_le _ _ _
          _ ≤ maxC := by omega

/-- Witness for C7 at a concrete input: capacity 2, three distinct keys. -/
theorem claim_C7_cache_eviction_witness :
    Batcher.lookupCache
      (([("p", "a"), ("p", "b"), ("p", "c")] :
          List Batcher.CacheKey).foldl
        (fun c k => Batcher.addToCache 2 c k (1, "r")) []) ("p", "a") =
      none :=
  (claim_C7_cache_eviction 2 (by norm_num) ("p", "a") [("p", "b"), ("p", "c")]
    (fun _ => (1, "r")) (by decide) (by decide)).1

/-- C5 counterexample: two requests with identical payload and provider,
the second submitted before the first resolves, both miss the cache (it is
only written after a future resolves), both are enqueued, and draining the
queue makes 2 underlying LLM calls — not 1.  The batcher has no in-flight
deduplication. -/
theorem claim_C5_counterexample :
    (Batcher.processQueue 1000 (fun _ => .ok "5")
        (Batcher.submit (Batcher.submit ⟨[], [], 0⟩ "qwen" "post").2
          "qwen" "post").2).2.llmCalls = 2 ∧ (2 : Nat) ≠ 1 :=
  ⟨rfl, by decide⟩

/-- C5 amended: two submissions with the same cache key, the second made
before the first resolves, both miss the cache and are both enqueued; one
underlying LLM call is made per request (two in total) and both futures
resolve to the same value; a submission whose cache key is already in the
cache resolves immediately from the cache, with no enqueue and no call. -/
theorem claim_C5_batcher_dedup (st : Batcher.BatcherState)
    (provider text : String)
    (llm : Batcher.CacheKey → Except Retry.PyError String) (maxC : Nat)
    (hmiss : Batcher.lookupCache st.cache (provider, text) = none)
    (hq : st.queue = []) :
    ((Batcher.submit st provider text).1 = none ∧
     (Batcher.submit (Batcher.submit st provider text).2 provider
        text).1 = none ∧
     (Batcher.submit (Batcher.submit st provider text).2 provider
        text).2.queue = [(provider, text), (provider, text)] ∧
     (Batcher.processQueue maxC llm
        (Batcher.submit (Batcher.submit st provider text).2 provider
          text).2).1 =
       [Batcher.processSingleRequest (llm (provider, text)),
        Batcher.processSingleRequest (llm (provider, text))] ∧
     (Batcher.processQueue maxC llm
        (Batcher.submit (Batcher.submit st provider text).2 provider
          text).2).2.llmCalls = st.llmCalls + 2) ∧
    (∀ (st' : Batcher.BatcherState) (v : Nat × String),
      Batcher.lookupCache st'.cache (provider, text) = some v →
      Batcher.submit st' provider text = (some v, st')) := by
  constructor
  · simp [Batcher.submit, hmiss, Batcher.processQueue, hq]
  · intro st' v hv
    simp [Batcher.submit, hv]

/-- Witness for C5 at a concrete input: empty batcher state, two identical
submissions, then queue processing. -/
theorem claim_C5_batcher_dedup_witness :
    (Batcher.processQueue 1000 (fun _ => .ok "7")
        (Batcher.submit (Batcher.submit ⟨[], [], 0⟩ "qwen" "post").2
          "qwen" "post").2).1 =
      [Batcher.processSingleRequest (.ok "7"),
       Batcher.processSingleRequest (.ok "7")] ∧
    (Batcher.processQueue 1000 (fun _ => .ok "7")
        (Batcher.submit (Batcher.submit ⟨[], [], 0⟩ "qwen" "post").2
          "qwen" "post").2).2.llmCalls = 0 + 2 :=
  ⟨((claim_C5_batcher_dedup ⟨[], [], 0⟩ "qwen" "post" (fun _ => .ok "7")
      1000 rfl rfl).1).2.2.2.1,
   ((claim_C5_batcher_dedup ⟨[], [], 0⟩ "qwen" "post" (fun _ => .ok "7")
      1000 rfl rfl).1).2.2.2.2⟩

/-- C8: every value delivered by `_process_single_request` to a request's
future has its relevance-days component in `[1, 10000]`: the first digit
run of the stripped response is parsed and clamped to that range, a
response with no digits yields the default 30, and an exception during the
call yields the default result `(30, "ERROR: ...")` rather than an
exception. -/
theorem claim_C8_relevance_days_range (r : Except Retry.PyError String) :
    (1 ≤ (Batcher.processSingleRequest r).1 ∧
      (Batcher.processSingleRequest r).1 ≤ 10000) ∧
    (∀ raw, r = .ok raw →
      Batcher.firstDigitRun (Str.strip raw).toList = [] →
      Batcher.processSingleRequest r = (30, raw)) ∧
    (∀ raw, r = .ok raw →
      Batcher.firstDigitRun (Str.strip raw).toList ≠ [] →
      Batcher.processSingleRequest r =
        (max 1 (min 10000 (Batcher.digitsToNat
          (Batcher.firstDigitRun (Str.strip raw).toList))), raw)) ∧
    (∀ e, r = .error e →
      Batcher.processSingleRequest r = (30, "ERROR: " ++ e.message)) := by
  refine ⟨?_, ?_, ?_, ?_⟩
  · cases r with
    | error e => exact ⟨by norm_num [Batcher.processSingleRequest],
        by norm_num [Batcher.processSingleRequest]⟩
    | ok raw =>
        simp only [Batcher.processSingleRequest, Batcher.parseRelevanceDays]
        split
        · omega
        · exact ⟨le_max_left _ _, max_le (by norm_num) (min_le_left _ _)⟩
  · rintro raw rfl hd
    simp only [String.toList] at hd
    simp [Batcher.processSingleRequest, Batcher.parseRelevanceDays, hd]
  · rintro raw rfl hd
    simp only [String.toList] at hd
    simp [Batcher.processSingleRequest, Batcher.parseRelevanceDays, hd]
  · rintro e rfl
    rfl

/-- Witness for C8 at concrete inputs: a digit response, a digit-free
response, an out-of-range response, and a failed call. -/
theorem claim_C8_relevance_days_range_witness :
    Batcher.processSingleRequest (.ok " 45 дней ") = (45, " 45 дней ") ∧
    Batcher.processSingleRequest (.ok "нет числа") = (30, "нет числа") ∧
    Batcher.processSingleRequest (.ok "99999 дней") =
      (10000, "99999 дней") ∧
    Batcher.processSingleRequest (.error Retry.timeoutError) =
      (30, "ERROR: request timed out") ∧
    1 ≤ (Batcher.processSingleRequest (.ok "0")).1 ∧
    (Batcher.processSingleRequest (.ok "0")).1 ≤ 10000 :=
  ⟨by decide, by decide, by decide,
    (claim_C8_relevance_days_range (.error Retry.timeoutError)).2.2.2
      Retry.timeoutError rfl,
    (claim_C8_relevance_days_range (.ok "0")).1.1,
    (claim_C8_relevance_days_range (.ok "0")).1.2⟩

/-- C9: `get_history` never raises — it is a total function of the store
outcome — and returns the empty list when the session key is absent, when
the store operation fails, when the stored value is empty, and when the
stored value does not decode; otherwise it returns the decoded message
list. -/
theorem claim_C9_get_history_total
    (decode : String → Option (List Memory.Msg)) :
    (∀ e : Retry.PyError, Memory.getHistory decode (.error e) = []) ∧
    Memory.getHistory decode (.ok none) = [] ∧
    (∀ s, decode s = none → Memory.getHistory decode (.ok (some s)) = []) ∧
    (∀ s h, s ≠ "" → decode s = some h →
      Memory.getHistory decode (.ok (some s)) = h) := by
  refine ⟨fun e => rfl, rfl, ?_, ?_⟩
  · intro s hs
    by_cases he : s = ""
    · simp [Memory.getHistory, he]
    · simp [Memory.getHistory, he, hs]
  · intro s h hne hs
    simp [Memory.getHistory, hne, hs]

/-- Witness for C9 at concrete inputs: failed store call, absent key,
undecodable value, decodable value. -/
theorem claim_C9_get_history_total_witness :
    Memory.getHistory (fun _ => none) (.error Retry.timeoutError) = [] ∧
    Memory.getHistory (fun _ => none) (.ok none) = [] ∧
    Memory.getHistory (fun _ => none) (.ok (some "not json")) = [] ∧
    Memory.getHistory (fun _ => some [⟨"user", "hi"⟩])
      (.ok (some "[92]")) = [⟨"user", "hi"⟩] :=
  ⟨(claim_C9_get_history_total (fun _ => none)).1 Retry.timeoutError,
   (claim_C9_get_history_total (fun _ => none)).2.1,
   (claim_C9_get_history_total (fun _ => none)).2.2.1 "not json" rfl,
   (claim_C9_get_history_total (fun _ => some [⟨"user", "hi"⟩])).2.2.2
     "[92]" [⟨"user", "hi"⟩] (by decide) rfl⟩

/-- C6: in a generate run that used retrieval, candidates with empty or
too-short text or negative score are dropped by validation, and when
nothing survives validation or the relevance filter, `generate` returns
the canned no-relevant-information answer with empty source ids and empty
metadata as a normal `.ok` outcome, not an error. -/
theorem claim_C6_rejected_fallback (query : String)
    (hq : Str.strip query ≠ "") (rawDocuments : List Generation.Doc)
    (rel : Nat → Except Retry.PyError Bool) (ans : String) :
    (∀ d, d ∈ Generation.validateDocuments rawDocuments 0 10 ↔
      d ∈ rawDocuments ∧ 0 ≤ d.score ∧ d.text ≠ "" ∧
        10 ≤ (Str.strip d.text).length) ∧
    (Generation.validateDocuments rawDocuments 0 10 = [] →
      Generation.generateWithRetrieval query rawDocuments rel ans =
        .ok (Generation.noRelevantInfoMessage, [], [])) ∧
    (Generation.evaluateDocumentsRelevanceParallel
        (Generation.validateDocuments rawDocuments 0 10) rel = [] →
      Generation.generateWithRetrieval query rawDocuments rel ans =
        .ok (Generation.noRelevantInfoMessage, [], [])) := by
  refine ⟨?_, ?_, ?_⟩
  · intro d
    simp only [Generation.validateDocuments, List.mem_filter,
      decide_eq_true_eq, not_lt]
  · intro hv
    simp [Generation.generateWithRetrieval, hq, hv]
  · intro hf
    by_cases hv : Generation.validateDocuments rawDocuments 0 10 = []
    · simp [Generation.generateWithRetrieval, hq, hv]
    · simp [Generation.generateWithRetrieval, hq, hv, hf]

/-- Witness for C6 at a concrete input: one candidate with too-short text;
validation leaves nothing and generate returns the canned answer. -/
theorem claim_C6_rejected_fallback_witness :
    Str.strip "вопрос" ≠ "" ∧
    Generation.validateDocuments [⟨"d1", 1, "коротко", none⟩] 0 10 = [] ∧
    Generation.generateWithRetrieval "вопрос" [⟨"d1", 1, "коротко", none⟩]
        (fun _ => .ok true) "ответ" =
      .ok (Generation.noRelevantInfoMessage, [], []) :=
  ⟨by decide, by decide,
    (claim_C6_rejected_fallback "вопрос" (by decide)
      [⟨"d1", 1, "коротко", none⟩] (fun _ => .ok true) "ответ").2.1
      (by decide)⟩

/-- C10: a successful `delete_all_documents` recreates the collection via
`_ensure_collection`: afterwards the collection exists, is empty, has the
same configuration as on fresh initialization, and a subsequent
`add_documents` does not fail for lack of a collection. -/
theorem claim_C10_delete_all_recreates (st : Vector.StoreState)
    (name : String) (dim : Nat) (docs ids : List String)
    (hdocs : docs ≠ []) (hids : ids.Nodup) :
    Vector.findCollection (Vector.deleteAllDocuments st name dim) name =
      some (Vector.defaultConfig dim, []) ∧
    Vector.findCollection (Vector.deleteAllDocuments st name dim) name =
      Vector.findCollection (Vector.ensureCollection ⟨[]⟩ name dim) name ∧
    ∃ st', Vector.addDocuments (Vector.deleteAllDocuments st name dim)
      name docs ids = .ok st' := by
  have hnotin :
      name ∉ (st.collections.filter fun e => ¬ e.1 = name).map Prod.fst := by
    intro hc
    rcases List.mem_map.mp hc with ⟨e, he, hfst⟩
    have h2 := (List.mem_filter.mp he).2
    simp only [decide_eq_true_eq] at h2
    exact h2 hfst
  have hdel : (Vector.deleteAllDocuments st name dim).collections =
      (st.collections.filter fun e => ¬ e.1 = name) ++
        [(name, Vector.defaultConfig dim, [])] := by
    simp [Vector.deleteAllDocuments, Vector.ensureCollection, hnotin]
  have hnone :
      (st.collections.filter fun e => ¬ e.1 = name).find?
        (fun e => e.1 = name) = none := by
    rw [List.find?_eq_none]
    intro e he
    have h2 := (List.mem_filter.mp he).2
    simpa using h2
  have hfind : (Vector.deleteAllDocuments st name dim).collections.find?
      (fun e => e.1 = name) = some (name, Vector.defaultConfig dim, []) := by
    rw [hdel, List.find?_append, hnone]
    simp
  refine ⟨?_, ?_, ?_⟩
  · rw [Vector.findCollection, hfind]
    rfl
  · rw [Vector.findCollection, hfind]
    simp [Vector.ensureCollection, Vector.findCollection]
  · refine ⟨?_, ?_⟩
    · exact ⟨(Vector.deleteAllDocuments st name dim).collections.map
        fun e => if e.1 = name then (e.1, e.2.1, e.2.2 ++ ids) else e⟩
    · simp [Vector.addDocuments, hdocs, hids, hfind]

/-- Witness for C10 at a concrete input: a store holding one foreign
collection and the target collection with two documents. -/
theorem claim_C10_delete_all_recreates_witness :
    Vector.findCollection
      (Vector.deleteAllDocuments
        ⟨[("other", Vector.defaultConfig 3, ["x"]),
          ("news", Vector.defaultConfig 3, ["a", "b"])]⟩ "news" 3) "news" =
      some (Vector.defaultConfig 3, []) ∧ ["doc1"] ≠ ([] : List String) :=
  ⟨(claim_C10_delete_all_recreates
      ⟨[("other", Vector.defaultConfig 3, ["x"]),
        ("news", Vector.defaultConfig 3, ["a", "b"])]⟩ "news" 3 ["doc1"]
      ["id1"] (by decide) (by decide)).1,
   by decide⟩
